import Mathlib

/-!
Verification development for the castools repository (cas2wav).

The embedding models the two core subsystems:
* the FSK encoder of caslib.c (writePulse, writeSync, writeByte, writeData,
  the sine lookup table), and
* the block scanner of cas2wav.c (the main loop over the in-memory image).

Audio output is modelled at two levels: an event stream (silence runs, tone
pulses, diagnostics) produced by the scanner and framer, and the PCM sample
counts and sample values obtained from the events via the pulse synthesis
formulas of caslib.c.
-/

namespace CasTools

/-- Block sync marker from caslib.c: 1F A6 DE BA CC 13 7D 74. -/
def HEADER : List ℕ := [0x1F, 0xA6, 0xDE, 0xBA, 0xCC, 0x13, 0x7D, 0x74]

/-- ASCII file type marker: ten bytes EA. -/
def ASCII : List ℕ := List.replicate 10 0xEA

/-- Binary file type marker: ten bytes D0. -/
def BIN : List ℕ := List.replicate 10 0xD0

/-- BASIC file type marker: ten bytes D3. -/
def BASIC : List ℕ := List.replicate 10 0xD3

/-- MSX tape EOF marker (Ctrl-Z), caslib.c. -/
def EOF_MARKER : ℕ := 0x1A

/-- Audio output sample rate, lib/caslib.h. -/
def OUTPUT_FREQUENCY : ℕ := 43200

/-- Short silence between blocks: one second of samples, lib/caslib.h. -/
def SHORT_SILENCE : ℕ := OUTPUT_FREQUENCY

/-- Long silence: two seconds of samples, lib/caslib.h. -/
def LONG_SILENCE : ℕ := OUTPUT_FREQUENCY * 2

/-- 0 bit tone frequency, lib/caslib.h. -/
def LONG_PULSE : ℕ := 1200

/-- 1 bit tone frequency, lib/caslib.h. -/
def SHORT_PULSE : ℕ := 2400

/-- Initial sync pulse count at 1200 baud, lib/caslib.h (the header that
cas2wav.c is compiled against, since it uses WriteBuffer and the in-memory
writeData declared only there). -/
def SYNC_INITIAL : ℕ := 8000

/-- Block sync pulse count at 1200 baud, lib/caslib.h. -/
def SYNC_BLOCK : ℕ := 2000

/-- Abstract output events.  The C code writes raw PCM bytes through the
WriteBuffer; here each constructor stands for one contiguous emission:
a run of silence samples (value 128), one sine tone pulse of the given
frequency, or one diagnostic message (printed to a non-audio channel). -/
inductive Evt where
  | silence (samples : ℕ)
  | tone (freq : ℕ)
  | skipDiag
  | unknownDiag
deriving DecidableEq

/-- writeSilence of caslib.c: sample_count samples of DC level 128.
Modelled as a single silence event carrying the sample count. -/
def writeSilence (sample_count : ℕ) : List Evt := [Evt.silence sample_count]

/-- Pulse length in samples, the integer truncation of
output_frequency / (baudrate * (freq / 1200.0)) computed in writePulse of
caslib.c.  For the frequencies (1200, 2400) and baud rates (1200, 2400)
used by the program the floating point computation is exact, and the real
quotient equals rate * 1200 / (baud * freq), so the natural number
division below is its exact floor. -/
def pulseLen (freq baud rate : ℕ) : ℕ := rate * 1200 / (baud * freq)

/-- Sine lookup table of caslib.c: entry i is
(unsigned char)(sin(2 pi i / 360) * 127.0 + 128.0).  The cast truncates
toward zero; the operand lies in [1, 255], so the cast is the floor. -/
noncomputable def sine_table (i : ℕ) : ℕ :=
  (⌊Real.sin (2 * Real.pi * i / 360) * 127 + 128⌋).toNat

/-- writePulse of caslib.c: one sine cycle of pulseLen samples; sample n is
the table entry at index n * table_step truncated, where
table_step = 360 / length.  As real numbers n * (360 / len) = n * 360 / len,
so the natural division below is the exact floor (the double arithmetic is
exact for the pulse lengths 36, 18 and 9 that the program uses). -/
noncomputable def writePulse (freq baud rate : ℕ) : List ℕ :=
  (List.range (pulseLen freq baud rate)).map
    (fun n => sine_table (n * 360 / pulseLen freq baud rate))

/-- writeSync of caslib.c: pulse_count * (baudrate / 1200.0) truncated
SHORT_PULSE tones.  For baud rates 1200 and 2400 the float product is exact
and equals the natural division below. -/
def writeSync (pulse_count baud : ℕ) : List Evt :=
  List.replicate (pulse_count * baud / 1200) (Evt.tone SHORT_PULSE)

/-- The 8 data bit emissions of writeByte, least significant bit first:
a 1 bit gives two SHORT_PULSE tones, a 0 bit one LONG_PULSE tone, then the
byte is shifted right. -/
def dataBits : ℕ → ℕ → List ℕ
  | _, 0 => []
  | b, n + 1 =>
      (if b % 2 = 1 then [SHORT_PULSE, SHORT_PULSE] else [LONG_PULSE]) ++
        dataBits (b / 2) n

/-- writeByte of caslib.c as the list of tone frequencies it emits:
start bit (one LONG_PULSE), 8 data bits LSB first, stop bits
(four SHORT_PULSE tones). -/
def writeByte (b : ℕ) : List ℕ :=
  LONG_PULSE :: (dataBits b 8 ++ List.replicate 4 SHORT_PULSE)

/-- The tone events produced by framing each byte of a list in order. -/
def dataEvts (bytes : List ℕ) : List Evt :=
  bytes.flatMap (fun b => (writeByte b).map Evt.tone)

/-- The loop of writeData in caslib.c, an 8-byte sliding window over the
input stream.  Arguments: remaining input bytes, current window, current
position (the stream index of the first byte still in the window), current
eof flag.  Returns the bytes transmitted through writeByte in order, the
final position, and the final eof flag.

Each iteration reads one byte; if the window already holds 8 bytes the
oldest is transmitted (setting eof when it is the EOF marker) and the
position advances; the new byte is appended; if the window now equals
HEADER the function returns with the stream positioned at the marker.
At end of input the whole remaining window is transmitted. -/
def writeDataLoop : List ℕ → List ℕ → ℕ → Bool → List ℕ × ℕ × Bool
  | [], window, position, eof =>
      (window, position + window.length,
        eof || window.any (· == EOF_MARKER))
  | b :: rest, window, position, eof =>
      if window.length = 8 then
        let w0 := window.headD 0
        let eof2 := eof || (w0 == EOF_MARKER)
        let window2 := window.tail ++ [b]
        if window2 = HEADER then ([w0], position + 1, eof2)
        else
          let r := writeDataLoop rest window2 (position + 1) eof2
          (w0 :: r.1, r.2.1, r.2.2)
      else
        let window2 := window ++ [b]
        if window2 = HEADER then ([], position, eof)
        else writeDataLoop rest window2 position eof

/-- Modelled from the spec: the in-memory writeData variant declared in
lib/caslib.h and called by cas2wav.c is not present under src (only its
FILE-based sibling in caslib.c, embedded above as writeDataLoop, is).
Per the spec it transmits payload bytes starting at the cursor until the
next marker or the end of the image; this coincides with the caslib.c
algorithm applied to the stream positioned at pos with an empty window
and a cleared eof flag. -/
def writeData (cas : List ℕ) (pos : ℕ) : List ℕ × ℕ × Bool :=
  writeDataLoop (cas.drop pos) [] pos false

/-- Splits a byte list at the first offset where the next 8 bytes equal
HEADER: returns the bytes before that offset and, when a marker occurs,
the suffix starting at the marker. -/
def splitAtMarker : List ℕ → List ℕ × Option (List ℕ)
  | [] => ([], none)
  | b :: rest =>
      if (b :: rest).take 8 = HEADER then ([], some (b :: rest))
      else
        let r := splitAtMarker rest
        (b :: r.1, r.2)

/-- PCM sample count contributed by one event at the given baud rate. -/
def pcmLen (baud : ℕ) : Evt → ℕ
  | Evt.silence n => n
  | Evt.tone f => pulseLen f baud OUTPUT_FREQUENCY
  | Evt.skipDiag => 0
  | Evt.unknownDiag => 0

/-- Total PCM byte count of an event stream at the given baud rate. -/
def totalPcm (baud : ℕ) (evts : List Evt) : ℕ :=
  (evts.map (pcmLen baud)).sum

/-- PCM sample count of one framed data byte at the given baud rate. -/
def byteSamples (baud b : ℕ) : ℕ :=
  ((writeByte b).map (fun f => pulseLen f baud OUTPUT_FREQUENCY)).sum

/-- Number of silence events in an event stream. -/
def countSilence (evts : List Evt) : ℕ :=
  evts.countP (fun e => match e with | Evt.silence _ => true | _ => false)

/-- Number of diagnostic events in an event stream. -/
def countDiag (evts : List Evt) : ℕ :=
  evts.countP (fun e =>
    match e with
    | Evt.skipDiag => true
    | Evt.unknownDiag => true
    | _ => false)

/-- Inverse FSK rule of the spec for one data bit: one LONG_PULSE tone
decodes to bit 0, two SHORT_PULSE tones decode to bit 1; n bits are read
least significant first. -/
def decodeBits : ℕ → List ℕ → Option (ℕ × List ℕ)
  | 0, input => some (0, input)
  | n + 1, input =>
      match input with
      | [] => none
      | t :: rest =>
          if t = LONG_PULSE then
            (decodeBits n rest).map (fun p => (2 * p.1, p.2))
          else if t = SHORT_PULSE then
            match rest with
            | [] => none
            | t2 :: rest2 =>
                if t2 = SHORT_PULSE then
                  (decodeBits n rest2).map (fun p => (2 * p.1 + 1, p.2))
                else none
          else none

/-- Inverse FSK rule of the spec for one framed byte: a LONG_PULSE start
bit, 8 data bits LSB first, and two stop bits of value 1 (four SHORT_PULSE
tones); returns the decoded byte and the remaining tones. -/
def decodeByte (tones : List ℕ) : Option (ℕ × List ℕ) :=
  match tones with
  | [] => none
  | t :: rest =>
      if t = LONG_PULSE then
        match decodeBits 8 rest with
        | some (v, s1 :: s2 :: s3 :: s4 :: r2) =>
            if s1 = SHORT_PULSE ∧ s2 = SHORT_PULSE ∧ s3 = SHORT_PULSE ∧
                s4 = SHORT_PULSE then some (v, r2) else none
        | _ => none
      else none

/-! ### Properties of splitAtMarker -/

lemma HEADER_length : HEADER.length = 8 := rfl

lemma splitAtMarker_pos (l : List ℕ) (h : l.take 8 = HEADER) :
    splitAtMarker l = ([], some l) := by
  cases l with
  | nil => simp [HEADER] at h
  | cons b rest => rw [splitAtMarker, if_pos h]

lemma splitAtMarker_cons_neg (b : ℕ) (rest : List ℕ)
    (h : (b :: rest).take 8 ≠ HEADER) :
    splitAtMarker (b :: rest) =
      (b :: (splitAtMarker rest).1, (splitAtMarker rest).2) := by
  rw [splitAtMarker, if_neg h]

lemma splitAtMarker_short (l : List ℕ) (hlen : l.length ≤ 8)
    (hne : l.length = 8 → l ≠ HEADER) : splitAtMarker l = (l, none) := by
  induction l with
  | nil => rfl
  | cons b rest ih =>
    have htake : (b :: rest).take 8 = b :: rest := List.take_of_length_le hlen
    have hcond : (b :: rest).take 8 ≠ HEADER := by
      rw [htake]
      intro hEq
      rcases Nat.lt_or_ge (b :: rest).length 8 with hlt | hge
      · have := congrArg List.length hEq
        rw [HEADER_length] at this
        omega
      · exact hne (le_antisymm hlen hge) hEq
    rw [splitAtMarker_cons_neg b rest hcond]
    have hrest : splitAtMarker rest = (rest, none) := by
      refine ih (by simp at hlen ⊢; omega) ?_
      intro h8
      have : (b :: rest).length = rest.length + 1 := by simp
      omega
    rw [hrest]

lemma splitAtMarker_none_fst (l : List ℕ) (h : (splitAtMarker l).2 = none) :
    (splitAtMarker l).1 = l := by
  induction l with
  | nil => rfl
  | cons b rest ih =>
    by_cases hc : (b :: rest).take 8 = HEADER
    · rw [splitAtMarker_pos _ hc] at h; simp at h
    · rw [splitAtMarker_cons_neg b rest hc] at h ⊢
      simp only at h ⊢
      rw [ih h]

lemma splitAtMarker_none_noMarker (l : List ℕ)
    (h : (splitAtMarker l).2 = none) :
    ∀ k, (l.drop k).take 8 ≠ HEADER := by
  induction l with
  | nil =>
    intro k
    simp [HEADER]
  | cons b rest ih =>
    by_cases hc : (b :: rest).take 8 = HEADER
    · rw [splitAtMarker_pos _ hc] at h; simp at h
    · rw [splitAtMarker_cons_neg b rest hc] at h
      simp only at h
      intro k
      cases k with
      | zero => simpa using hc
      | succ k => simpa using ih h k

lemma splitAtMarker_some (l r : List ℕ) (h : (splitAtMarker l).2 = some r) :
    l = (splitAtMarker l).1 ++ r ∧ r.take 8 = HEADER := by
  induction l with
  | nil => simp [splitAtMarker] at h
  | cons b rest ih =>
    by_cases hc : (b :: rest).take 8 = HEADER
    · rw [splitAtMarker_pos _ hc] at h ⊢
      simp at h
      subst h
      exact ⟨rfl, hc⟩
    · rw [splitAtMarker_cons_neg b rest hc] at h ⊢
      simp only at h ⊢
      obtain ⟨h1, h2⟩ := ih h
      exact ⟨by rw [List.cons_append, ← h1], h2⟩

lemma splitAtMarker_min (l : List ℕ) :
    ∀ k < (splitAtMarker l).1.length, (l.drop k).take 8 ≠ HEADER := by
  induction l with
  | nil => simp [splitAtMarker]
  | cons b rest ih =>
    by_cases hc : (b :: rest).take 8 = HEADER
    · rw [splitAtMarker_pos _ hc]; simp
    · rw [splitAtMarker_cons_neg b rest hc]
      intro k hk
      cases k with
      | zero => simpa using hc
      | succ k =>
        simp only [List.length_cons] at hk
        simpa using ih k (by omega)

/-! ### Characterization of the writeData sliding-window loop -/

lemma writeDataLoop_eq (input : List ℕ) :
    ∀ (w : List ℕ) (pos : ℕ) (eof : Bool), w.length ≤ 8 →
      (w.length = 8 → w ≠ HEADER) →
      writeDataLoop input w pos eof =
        ((splitAtMarker (w ++ input)).1,
         pos + (splitAtMarker (w ++ input)).1.length,
         eof || (splitAtMarker (w ++ input)).1.any (· == EOF_MARKER)) := by
  induction input with
  | nil =>
    intro w pos eof hlen hne
    rw [List.append_nil, splitAtMarker_short w hlen hne, writeDataLoop]
  | cons b rest ih =>
    intro w pos eof hlen hne
    by_cases h8 : w.length = 8
    · cases w with
      | nil => simp at h8
      | cons hd tl =>
        have htl : tl.length = 7 := by simp at h8; omega
        have hwne : hd :: tl ≠ HEADER := hne h8
        have htake : ((hd :: tl) ++ (b :: rest)).take 8 = hd :: tl := by
          rw [← h8, List.take_left]
        have hsam :
            splitAtMarker ((hd :: tl) ++ (b :: rest)) =
              (hd :: (splitAtMarker (tl ++ (b :: rest))).1,
               (splitAtMarker (tl ++ (b :: rest))).2) := by
          rw [List.cons_append, splitAtMarker_cons_neg]
          rw [← List.cons_append, htake]
          exact hwne
        have hassoc : tl ++ (b :: rest) = (tl ++ [b]) ++ rest := by
          rw [List.append_assoc]; rfl
        by_cases hHdr : tl ++ [b] = HEADER
        · have hsam2 : splitAtMarker (tl ++ (b :: rest)) =
              ([], some (tl ++ (b :: rest))) := by
            apply splitAtMarker_pos
            rw [hassoc, hHdr, ← HEADER_length, List.take_left]
          rw [writeDataLoop]
          simp only [if_pos h8, List.headD_cons, List.tail_cons, if_pos hHdr,
            hsam, hsam2]
          simp
        · have h2len : (tl ++ [b]).length = 8 := by simp [htl]
          have h2ne : (tl ++ [b]).length = 8 → tl ++ [b] ≠ HEADER :=
            fun _ => hHdr
          have hrec := ih (tl ++ [b]) (pos + 1) (eof || (hd == EOF_MARKER))
            (by omega) h2ne
          rw [writeDataLoop]
          simp only [if_pos h8, List.headD_cons, List.tail_cons, if_neg hHdr,
            hrec, hsam, hassoc]
          simp only [Prod.mk.injEq]
          refine ⟨trivial, by simp only [List.length_cons]; omega,
            by simp [Bool.or_assoc]⟩
    · have hlt : w.length ≤ 7 := by omega
      by_cases hHdr : w ++ [b] = HEADER
      · have hsam : splitAtMarker (w ++ (b :: rest)) =
            ([], some (w ++ (b :: rest))) := by
          apply splitAtMarker_pos
          have : w ++ (b :: rest) = (w ++ [b]) ++ rest := by
            rw [List.append_assoc]; rfl
          rw [this, hHdr, ← HEADER_length, List.take_left]
        rw [writeDataLoop]
        simp only [if_neg h8, if_pos hHdr, hsam]
        simp
      · have h2ne : (w ++ [b]).length = 8 → w ++ [b] ≠ HEADER :=
          fun _ => hHdr
        have hrec := ih (w ++ [b]) pos eof (by simp; omega) h2ne
        rw [writeDataLoop]
        simp only [if_neg h8, if_neg hHdr, hrec]
        have : (w ++ [b]) ++ rest = w ++ (b :: rest) := by
          rw [List.append_assoc]; rfl
        rw [this]

/-- writeData transmits exactly the bytes before the first marker window
(or all remaining bytes), advances the cursor by their number, and reports
whether the EOF sentinel was among them. -/
lemma writeData_eq (cas : List ℕ) (pos : ℕ) :
    writeData cas pos =
      ((splitAtMarker (cas.drop pos)).1,
       pos + (splitAtMarker (cas.drop pos)).1.length,
       (splitAtMarker (cas.drop pos)).1.any (· == EOF_MARKER)) := by
  rw [writeData, writeDataLoop_eq (cas.drop pos) [] pos false (by simp)
    (by simp [HEADER])]
  simp

lemma writeData_pos_le (cas : List ℕ) (pos : ℕ) :
    pos ≤ (writeData cas pos).2.1 := by
  rw [writeData_eq]
  simp

/-! ### The block scanner of cas2wav.c -/

/-- The do-while loop of the ASCII branch in main (cas2wav.c): emit a short
silence and a block sync, transmit the next payload segment with the cursor
advanced past the 8-byte marker expected in front of it, and repeat while
the last segment did not contain the EOF sentinel and data remains.
Returns the events emitted and the final cursor. -/
def asciiLoop (cas : List ℕ) (baud : ℕ) (pos : ℕ) : List Evt × ℕ :=
  if h : (writeData cas (pos + 8)).2.2 = false ∧
      (writeData cas (pos + 8)).2.1 < cas.length then
    (writeSilence SHORT_SILENCE ++ writeSync SYNC_BLOCK baud ++
       dataEvts (writeData cas (pos + 8)).1 ++
       (asciiLoop cas baud (writeData cas (pos + 8)).2.1).1,
     (asciiLoop cas baud (writeData cas (pos + 8)).2.1).2)
  else
    (writeSilence SHORT_SILENCE ++ writeSync SYNC_BLOCK baud ++
       dataEvts (writeData cas (pos + 8)).1,
     (writeData cas (pos + 8)).2.1)
termination_by cas.length - pos
decreasing_by
  have := writeData_pos_le cas (pos + 8)
  omega

lemma asciiLoop_pos_le_aux (cas : List ℕ) (baud : ℕ) :
    ∀ n pos, cas.length - pos ≤ n → pos + 8 ≤ (asciiLoop cas baud pos).2 := by
  intro n
  induction n with
  | zero =>
    intro pos hn
    rw [asciiLoop]
    have hw := writeData_pos_le cas (pos + 8)
    split
    · omega
    · simpa using hw
  | succ n ih =>
    intro pos hn
    rw [asciiLoop]
    have hw := writeData_pos_le cas (pos + 8)
    split
    · rename_i h
      have hrec := ih (writeData cas (pos + 8)).2.1 (by omega)
      simp only
      omega
    · simpa using hw

lemma asciiLoop_pos_le (cas : List ℕ) (baud pos : ℕ) :
    pos + 8 ≤ (asciiLoop cas baud pos).2 :=
  asciiLoop_pos_le_aux cas baud cas.length pos (by omega)

/-- The main scanning loop of cas2wav.c: while at least 8 bytes remain at
the cursor, compare them with HEADER.  On a match, advance past the marker
and read the 10-byte type identifier: the ASCII branch emits configured
silence, initial sync and a payload segment followed by the do-while block
loop; the BIN or BASIC branch emits exactly two segments; an unrecognized
identifier emits a diagnostic, the fixed long silence, initial sync and one
segment; a truncated identifier (fewer than 10 bytes remain) emits a
diagnostic, the configured silence, initial sync and one segment.  On a
mismatch, emit a diagnostic and advance the cursor by one byte.  Returns
the emitted events and the final cursor. -/
def scanLoop (cas : List ℕ) (silence baud : ℕ) (pos : ℕ) : List Evt × ℕ :=
  if h8 : pos + 8 ≤ cas.length then
    if hH : (cas.drop pos).take 8 = HEADER then
      if h10 : pos + 8 + 10 ≤ cas.length then
        if hA : (cas.drop (pos + 8)).take 10 = ASCII then
          (writeSilence silence ++ writeSync SYNC_INITIAL baud ++
             dataEvts (writeData cas (pos + 8)).1 ++
             (asciiLoop cas baud (writeData cas (pos + 8)).2.1).1 ++
             (scanLoop cas silence baud
               (asciiLoop cas baud (writeData cas (pos + 8)).2.1).2).1,
           (scanLoop cas silence baud
             (asciiLoop cas baud (writeData cas (pos + 8)).2.1).2).2)
        else if hB : (cas.drop (pos + 8)).take 10 = BIN ∨
            (cas.drop (pos + 8)).take 10 = BASIC then
          (writeSilence silence ++ writeSync SYNC_INITIAL baud ++
             dataEvts (writeData cas (pos + 8)).1 ++
             writeSilence SHORT_SILENCE ++ writeSync SYNC_BLOCK baud ++
             dataEvts (writeData cas ((writeData cas (pos + 8)).2.1 + 8)).1 ++
             (scanLoop cas silence baud
               (writeData cas ((writeData cas (pos + 8)).2.1 + 8)).2.1).1,
           (scanLoop cas silence baud
             (writeData cas ((writeData cas (pos + 8)).2.1 + 8)).2.1).2)
        else
          (Evt.unknownDiag ::
             (writeSilence LONG_SILENCE ++ writeSync SYNC_INITIAL baud ++
               dataEvts (writeData cas (pos + 8)).1 ++
               (scanLoop cas silence baud (writeData cas (pos + 8)).2.1).1),
           (scanLoop cas silence baud (writeData cas (pos + 8)).2.1).2)
      else
        (Evt.unknownDiag ::
           (writeSilence silence ++ writeSync SYNC_INITIAL baud ++
             dataEvts (writeData cas (pos + 8)).1 ++
             (scanLoop cas silence baud (writeData cas (pos + 8)).2.1).1),
         (scanLoop cas silence baud (writeData cas (pos + 8)).2.1).2)
    else
      (Evt.skipDiag :: (scanLoop cas silence baud (pos + 1)).1,
       (scanLoop cas silence baud (pos + 1)).2)
  else ([], pos)
termination_by cas.length - pos
decreasing_by
  all_goals
    first
      | omega
      | (have h1 := writeData_pos_le cas (pos + 8)
         first
           | omega
           | (have h2 := writeData_pos_le cas ((writeData cas (pos + 8)).2.1 + 8)
              omega)
           | (have h2 := asciiLoop_pos_le cas baud (writeData cas (pos + 8)).2.1
              omega))

/-! ### Branch equations of the scanner -/

lemma asciiLoop_stop (cas : List ℕ) (baud pos : ℕ)
    (h : ¬((writeData cas (pos + 8)).2.2 = false ∧
      (writeData cas (pos + 8)).2.1 < cas.length)) :
    asciiLoop cas baud pos =
      (writeSilence SHORT_SILENCE ++ writeSync SYNC_BLOCK baud ++
         dataEvts (writeData cas (pos + 8)).1,
       (writeData cas (pos + 8)).2.1) := by
  rw [asciiLoop, dif_neg h]

lemma asciiLoop_go (cas : List ℕ) (baud pos : ℕ)
    (h : (writeData cas (pos + 8)).2.2 = false ∧
      (writeData cas (pos + 8)).2.1 < cas.length) :
    asciiLoop cas baud pos =
      (writeSilence SHORT_SILENCE ++ writeSync SYNC_BLOCK baud ++
         dataEvts (writeData cas (pos + 8)).1 ++
         (asciiLoop cas baud (writeData cas (pos + 8)).2.1).1,
       (asciiLoop cas baud (writeData cas (pos + 8)).2.1).2) := by
  rw [asciiLoop]
  rw [dif_pos h]

lemma scanLoop_stop (cas : List ℕ) (s baud pos : ℕ)
    (h : cas.length < pos + 8) :
    scanLoop cas s baud pos = ([], pos) := by
  rw [scanLoop, dif_neg (by omega)]

lemma scanLoop_skip (cas : List ℕ) (s baud pos : ℕ)
    (h8 : pos + 8 ≤ cas.length) (hH : (cas.drop pos).take 8 ≠ HEADER) :
    scanLoop cas s baud pos =
      (Evt.skipDiag :: (scanLoop cas s baud (pos + 1)).1,
       (scanLoop cas s baud (pos + 1)).2) := by
  rw [scanLoop, dif_pos h8, dif_neg hH]

lemma scanLoop_ascii (cas : List ℕ) (s baud pos : ℕ)
    (h8 : pos + 8 ≤ cas.length) (hH : (cas.drop pos).take 8 = HEADER)
    (h10 : pos + 8 + 10 ≤ cas.length)
    (hA : (cas.drop (pos + 8)).take 10 = ASCII) :
    scanLoop cas s baud pos =
      (writeSilence s ++ writeSync SYNC_INITIAL baud ++
         dataEvts (writeData cas (pos + 8)).1 ++
         (asciiLoop cas baud (writeData cas (pos + 8)).2.1).1 ++
         (scanLoop cas s baud
           (asciiLoop cas baud (writeData cas (pos + 8)).2.1).2).1,
       (scanLoop cas s baud
         (asciiLoop cas baud (writeData cas (pos + 8)).2.1).2).2) := by
  rw [scanLoop, dif_pos h8, dif_pos hH, dif_pos h10, dif_pos hA]

lemma scanLoop_unknown (cas : List ℕ) (s baud pos : ℕ)
    (h8 : pos + 8 ≤ cas.length) (hH : (cas.drop pos).take 8 = HEADER)
    (h10 : pos + 8 + 10 ≤ cas.length)
    (hA : (cas.drop (pos + 8)).take 10 ≠ ASCII)
    (hB : ¬((cas.drop (pos + 8)).take 10 = BIN ∨
      (cas.drop (pos + 8)).take 10 = BASIC)) :
    scanLoop cas s baud pos =
      (Evt.unknownDiag ::
         (writeSilence LONG_SILENCE ++ writeSync SYNC_INITIAL baud ++
           dataEvts (writeData cas (pos + 8)).1 ++
           (scanLoop cas s baud (writeData cas (pos + 8)).2.1).1),
       (scanLoop cas s baud (writeData cas (pos + 8)).2.1).2) := by
  rw [scanLoop, dif_pos h8, dif_pos hH, dif_pos h10, dif_neg hA, dif_neg hB]

lemma scanLoop_trunc (cas : List ℕ) (s baud pos : ℕ)
    (h8 : pos + 8 ≤ cas.length) (hH : (cas.drop pos).take 8 = HEADER)
    (h10 : ¬(pos + 8 + 10 ≤ cas.length)) :
    scanLoop cas s baud pos =
      (Evt.unknownDiag ::
         (writeSilence s ++ writeSync SYNC_INITIAL baud ++
           dataEvts (writeData cas (pos + 8)).1 ++
           (scanLoop cas s baud (writeData cas (pos + 8)).2.1).1),
       (scanLoop cas s baud (writeData cas (pos + 8)).2.1).2) := by
  rw [scanLoop, dif_pos h8, dif_pos hH, dif_neg h10]

/-! ### The single ASCII block scenario -/

lemma mem_of_getLast (l : List ℕ) (a : ℕ) (h : l.getLast? = some a) :
    a ∈ l := by
  induction l with
  | nil => simp at h
  | cons b rest ih =>
    cases rest with
    | nil =>
      simp [List.getLast?] at h
      simp [h]
    | cons c tl =>
      rw [List.getLast?_cons_cons] at h
      exact List.mem_cons_of_mem _ (ih h)

lemma dataEvts_nil : dataEvts [] = [] := rfl

/-- A single-file ASCII image: marker, ASCII identifier, payload whose last
byte is the EOF sentinel, and no further marker anywhere after the initial
one.  The scanner emits the configured silence, the initial sync, the data
bytes (the 10 identifier bytes followed by the payload), then one
additional short silence and block sync from the unconditional first
iteration of the do-while loop, and finishes with the cursor 8 bytes past
the image length. -/
lemma scan_ascii_single (payload : List ℕ) (s baud : ℕ)
    (hnm : (splitAtMarker (ASCII ++ payload)).2 = none)
    (hlast : payload.getLast? = some EOF_MARKER) :
    scanLoop (HEADER ++ ASCII ++ payload) s baud 0 =
      (writeSilence s ++ writeSync SYNC_INITIAL baud ++
         dataEvts (ASCII ++ payload) ++
         (writeSilence SHORT_SILENCE ++ writeSync SYNC_BLOCK baud),
       (HEADER ++ ASCII ++ payload).length + 8) := by
  set cas := HEADER ++ ASCII ++ payload with hcas
  set body := ASCII ++ payload with hbody
  have hlen : cas.length = 18 + payload.length := by
    simp [hcas, HEADER, ASCII]
    omega
  have hbl : body.length = 10 + payload.length := by
    simp [hbody, ASCII]
    omega
  have htake8 : (cas.drop 0).take 8 = HEADER := by
    rw [List.drop_zero, hcas, ← HEADER_length]
    exact List.take_left _ _
  have hdrop8 : cas.drop 8 = body := by
    rw [hcas, hbody, show (8 : ℕ) = HEADER.length from rfl]
    exact List.drop_left _ _
  have hmem : EOF_MARKER ∈ body := by
    rw [hbody]
    exact List.mem_append_right _ (mem_of_getLast _ _ hlast)
  have hany : body.any (· == EOF_MARKER) = true := by
    rw [List.any_eq_true]
    exact ⟨EOF_MARKER, hmem, by simp⟩
  have hwd : writeData cas 8 = (body, cas.length, true) := by
    rw [writeData_eq, hdrop8, splitAtMarker_none_fst _ hnm, hany]
    have : 8 + body.length = cas.length := by omega
    rw [this]
  have hdropEnd : cas.drop (cas.length + 8) = [] := by
    apply List.drop_eq_nil_of_le
    omega
  have hwdEnd : writeData cas (cas.length + 8) = ([], cas.length + 8, false) := by
    rw [writeData_eq, hdropEnd]
    simp [splitAtMarker]
  have hinner : asciiLoop cas baud cas.length =
      (writeSilence SHORT_SILENCE ++ writeSync SYNC_BLOCK baud,
       cas.length + 8) := by
    rw [asciiLoop_stop]
    · rw [hwdEnd, dataEvts_nil, List.append_nil]
    · rw [hwdEnd]
      simp
  rw [scanLoop_ascii cas s baud 0 (by omega) htake8 (by omega)
    (by rw [Nat.zero_add, hdrop8, hbody, show (10 : ℕ) = ASCII.length from rfl]
        exact List.take_left _ _)]
  rw [Nat.zero_add, hwd]
  simp only
  rw [hinner]
  simp only
  rw [scanLoop_stop cas s baud (cas.length + 8) (by omega)]
  simp [List.append_assoc]

/-! ### Claim theorems -/

/-- C3: from every starting cursor within the image, writeData transmits
the bytes up to (exclusive) the first position whose next 8 bytes equal the
marker, returns the cursor positioned exactly there (or transmits all
remaining bytes and returns the image length when no marker follows), and
sets the eof flag exactly when the EOF sentinel occurred among the
transmitted bytes. -/
theorem C3_writeData_segment (cas : List ℕ) (pos : ℕ)
    (hpos : pos ≤ cas.length) :
    cas.drop pos =
      (writeData cas pos).1 ++ cas.drop ((writeData cas pos).2.1) ∧
    (writeData cas pos).2.1 = pos + (writeData cas pos).1.length ∧
    ((writeData cas pos).2.2 = true ↔ EOF_MARKER ∈ (writeData cas pos).1) ∧
    ((cas.drop ((writeData cas pos).2.1)).take 8 = HEADER ∨
      ((writeData cas pos).2.1 = cas.length ∧
        (writeData cas pos).1 = cas.drop pos)) ∧
    (∀ k < (writeData cas pos).1.length,
      (cas.drop (pos + k)).take 8 ≠ HEADER) := by
  have hdd : ∀ k : ℕ, cas.drop (pos + k) = (cas.drop pos).drop k := by
    intro k
    rw [List.drop_drop, Nat.add_comm]
  rcases hsam : splitAtMarker (cas.drop pos) with ⟨P, opt⟩
  have hw1 : (writeData cas pos).1 = P := by rw [writeData_eq, hsam]
  have hw2 : (writeData cas pos).2.1 = pos + P.length := by
    rw [writeData_eq, hsam]
  have hw3 : (writeData cas pos).2.2 = P.any (· == EOF_MARKER) := by
    rw [writeData_eq, hsam]
  refine ⟨?_, by rw [hw2, hw1], ?_, ?_, ?_⟩
  · rw [hw1, hw2, hdd]
    cases opt with
    | none =>
      have hfst := splitAtMarker_none_fst (cas.drop pos) (by rw [hsam])
      rw [hsam] at hfst
      simp only at hfst
      rw [hfst, List.drop_length, List.append_nil]
    | some r =>
      have hsome := splitAtMarker_some (cas.drop pos) r (by rw [hsam])
      rw [hsam] at hsome
      simp only at hsome
      obtain ⟨h1, _⟩ := hsome
      rw [h1, List.drop_left]
  · rw [hw3, hw1, List.any_eq_true]
    constructor
    · rintro ⟨x, hx, hbeq⟩
      rw [beq_iff_eq] at hbeq
      rwa [← hbeq]
    · intro hmem
      exact ⟨EOF_MARKER, hmem, by simp⟩
  · rw [hw1, hw2, hdd]
    cases opt with
    | none =>
      right
      have hfst := splitAtMarker_none_fst (cas.drop pos) (by rw [hsam])
      rw [hsam] at hfst
      simp only at hfst
      constructor
      · rw [hfst, List.length_drop]
        omega
      · exact hfst
    | some r =>
      left
      have hsome := splitAtMarker_some (cas.drop pos) r (by rw [hsam])
      rw [hsam] at hsome
      simp only at hsome
      obtain ⟨h1, h2⟩ := hsome
      rw [h1, List.drop_left]
      exact h2
  · intro k hk
    rw [hw1] at hk
    rw [hdd]
    have hmin := splitAtMarker_min (cas.drop pos) k
    rw [hsam] at hmin
    exact hmin hk

theorem C3_witness :
    (0 : ℕ) ≤ ([1, 2] ++ HEADER ++ [3]).length ∧
    (writeData ([1, 2] ++ HEADER ++ [3]) 0).2.1 =
      0 + (writeData ([1, 2] ++ HEADER ++ [3]) 0).1.length :=
  ⟨by decide, (C3_writeData_segment ([1, 2] ++ HEADER ++ [3]) 0 (by decide)).2.1⟩

/-- C5: writeSync emits exactly round(units * baud / 1200) SHORT_PULSE
tones for baud rates 1200 and 2400, and the scanner's sync invocations use
the base unit constants 8000 (initial) and 2000 (block). -/
theorem C5_emitSync (u baud : ℕ) (hb : baud = 1200 ∨ baud = 2400) :
    writeSync u baud =
      List.replicate ((round (((u * baud : ℕ) : ℚ) / 1200)).toNat)
        (Evt.tone SHORT_PULSE) ∧
    SYNC_INITIAL = 8000 ∧ SYNC_BLOCK = 2000 := by
  refine ⟨?_, rfl, rfl⟩
  rcases hb with h | h <;> subst h
  · have h1 : ((u * 1200 : ℕ) : ℚ) / 1200 = ((u : ℕ) : ℚ) := by
      push_cast
      ring
    rw [writeSync, h1, round_natCast]
    have h2 : u * 1200 / 1200 = u := Nat.mul_div_cancel u (by norm_num)
    rw [h2, Int.toNat_natCast]
  · have h1 : ((u * 2400 : ℕ) : ℚ) / 1200 = ((2 * u : ℕ) : ℚ) := by
      push_cast
      ring
    rw [writeSync, h1, round_natCast]
    have h2 : u * 2400 / 1200 = 2 * u := by
      have : u * 2400 = 2 * u * 1200 := by ring
      rw [this, Nat.mul_div_cancel _ (by norm_num : (0:ℕ) < 1200)]
    rw [h2, Int.toNat_natCast]

theorem C5_witness :
    ((1200 : ℕ) = 1200 ∨ (1200 : ℕ) = 2400) ∧
    (writeSync 5 1200 =
      List.replicate ((round (((5 * 1200 : ℕ) : ℚ) / 1200)).toNat)
        (Evt.tone SHORT_PULSE) ∧
    SYNC_INITIAL = 8000 ∧ SYNC_BLOCK = 2000) :=
  ⟨Or.inl rfl, C5_emitSync 5 1200 (Or.inl rfl)⟩

/-- C6: when the 8 bytes at the cursor do not equal the marker, the
scanner emits one skip diagnostic and continues from the cursor advanced
by exactly one byte, so a marker starting one byte later is examined next
and a corrupted prefix never aborts the run. -/
theorem C6_skip_one_byte (cas : List ℕ) (s baud pos : ℕ)
    (h8 : pos + 8 ≤ cas.length) (hH : (cas.drop pos).take 8 ≠ HEADER) :
    scanLoop cas s baud pos =
      (Evt.skipDiag :: (scanLoop cas s baud (pos + 1)).1,
       (scanLoop cas s baud (pos + 1)).2) :=
  scanLoop_skip cas s baud pos h8 hH

theorem C6_witness :
    ((0 : ℕ) + 8 ≤ (List.replicate 8 0).length ∧
      ((List.replicate 8 (0 : ℕ)).drop 0).take 8 ≠ HEADER) ∧
    scanLoop (List.replicate 8 0) 0 1200 0 =
      (Evt.skipDiag :: (scanLoop (List.replicate 8 0) 0 1200 (0 + 1)).1,
       (scanLoop (List.replicate 8 0) 0 1200 (0 + 1)).2) :=
  ⟨⟨by decide, by decide⟩,
    C6_skip_one_byte (List.replicate 8 0) 0 1200 0 (by decide) (by decide)⟩

/-- C10: the scanner only examines cursor positions with at least 8 bytes
remaining; once fewer than 8 bytes remain it stops immediately, emitting
no events at all: no PCM data, no silence and no diagnostics.  With pos 0
this covers every image shorter than 8 bytes. -/
theorem C10_trailing_dropped (cas : List ℕ) (s baud pos : ℕ)
    (h : cas.length < pos + 8) :
    scanLoop cas s baud pos = ([], pos) ∧
    totalPcm baud (scanLoop cas s baud pos).1 = 0 ∧
    countDiag (scanLoop cas s baud pos).1 = 0 ∧
    countSilence (scanLoop cas s baud pos).1 = 0 := by
  have hstop := scanLoop_stop cas s baud pos h
  rw [hstop]
  exact ⟨rfl, rfl, rfl, rfl⟩

theorem C10_witness :
    ([1, 2, 3] : List ℕ).length < 0 + 8 ∧
    scanLoop [1, 2, 3] 86400 1200 0 = ([], 0) :=
  ⟨by decide, (C10_trailing_dropped [1, 2, 3] 86400 1200 0 (by decide)).1⟩

/-! ### The sine table: bounds and the rounding discrepancy -/

lemma sine_table_floor_bounds (i : ℕ) :
    1 ≤ ⌊Real.sin (2 * Real.pi * i / 360) * 127 + 128⌋ ∧
    ⌊Real.sin (2 * Real.pi * i / 360) * 127 + 128⌋ ≤ 255 := by
  have hlo := Real.neg_one_le_sin (2 * Real.pi * i / 360)
  have hhi := Real.sin_le_one (2 * Real.pi * i / 360)
  constructor
  · apply Int.le_floor.mpr
    push_cast
    nlinarith
  · have hle : Real.sin (2 * Real.pi * i / 360) * 127 + 128 ≤ ((255 : ℤ) : ℝ) := by
      push_cast
      nlinarith
    calc ⌊Real.sin (2 * Real.pi * i / 360) * 127 + 128⌋
        ≤ ⌊((255 : ℤ) : ℝ)⌋ := Int.floor_le_floor hle
      _ = 255 := Int.floor_intCast 255

lemma sine_table_cast (i : ℕ) :
    (sine_table i : ℤ) = ⌊Real.sin (2 * Real.pi * i / 360) * 127 + 128⌋ := by
  rw [sine_table]
  exact Int.toNat_of_nonneg (le_trans (by norm_num) (sine_table_floor_bounds i).1)

lemma sine_table_bounds (i : ℕ) : 1 ≤ sine_table i ∧ sine_table i ≤ 255 := by
  have h := sine_table_floor_bounds i
  rw [sine_table]
  omega

/-- C4 (amended): each sine table entry is the truncation (floor, since the
operand is positive) of sin(2 pi i / 360) * 127 + 128 rather than its
rounding; all entries are unsigned 8-bit values in [1, 255] centered at the
silence level, and entry 0 equals 128. -/
theorem C4_sine_table_floor :
    (∀ i : ℕ, (sine_table i : ℤ) =
        ⌊Real.sin (2 * Real.pi * i / 360) * 127 + 128⌋ ∧
      1 ≤ sine_table i ∧ sine_table i ≤ 255) ∧
    sine_table 0 = 128 := by
  refine ⟨fun i => ⟨sine_table_cast i, sine_table_bounds i⟩, ?_⟩
  rw [sine_table]
  have hang : (2 * Real.pi * (0 : ℕ) / 360 : ℝ) = 0 := by norm_num
  rw [hang, Real.sin_zero]
  have : ((0 : ℝ) * 127 + 128) = ((128 : ℤ) : ℝ) := by norm_num
  rw [this, Int.floor_intCast]
  rfl

/-- C4 (counterexample): at index 45 the code stores 217, the truncation of
approximately 217.8026, while rounding as the claim states would give 218. -/
theorem C4_counterexample :
    (sine_table 45 : ℤ) ≠
      round (Real.sin (2 * Real.pi * 45 / 360) * 127 + 128) := by
  have hcast : ((45 : ℕ) : ℝ) = (45 : ℝ) := by norm_num
  have hang : (2 * Real.pi * (45 : ℝ) / 360) = Real.pi / 4 := by ring
  have hsin : Real.sin (2 * Real.pi * (45 : ℝ) / 360) = Real.sqrt 2 / 2 := by
    rw [hang, Real.sin_pi_div_four]
  have hlb : (1.41421 : ℝ) ≤ Real.sqrt 2 := by
    rw [show (1.41421 : ℝ) = Real.sqrt (1.41421 ^ 2) from
      (Real.sqrt_sq (by norm_num)).symm]
    apply Real.sqrt_le_sqrt
    norm_num
  have hub : Real.sqrt 2 ≤ (1.41422 : ℝ) := by
    rw [show (1.41422 : ℝ) = Real.sqrt (1.41422 ^ 2) from
      (Real.sqrt_sq (by norm_num)).symm]
    apply Real.sqrt_le_sqrt
    norm_num
  have hxlo : (217.6 : ℝ) ≤ Real.sqrt 2 / 2 * 127 + 128 := by nlinarith
  have hxhi : Real.sqrt 2 / 2 * 127 + 128 < (218 : ℝ) := by nlinarith
  have hfloor : ⌊Real.sqrt 2 / 2 * 127 + 128⌋ = 217 := by
    rw [Int.floor_eq_iff]
    constructor
    · push_cast
      linarith
    · push_cast
      linarith
  have hround : round (Real.sqrt 2 / 2 * 127 + 128) = 218 := by
    rw [round_eq, Int.floor_eq_iff]
    constructor
    · push_cast
      linarith
    · push_cast
      linarith
  rw [sine_table_cast 45, hcast, hsin, hfloor, hround]
  decide

/-! ### Pulse synthesis bounds -/

lemma pulse_index_lt (len n : ℕ) (h0 : 0 < len) (hn : n < len) :
    n * 360 / len < 360 := by
  rw [Nat.div_lt_iff_lt_mul h0]
  omega

/-- C8: for the tone frequencies 1200 and 2400, baud rates 1200 and 2400
and the fixed 43200 Hz sample rate, writePulse emits exactly the truncated
sampleRate / (baud * (freq / 1200)) samples, every sine table index stays
below 360, and every emitted sample is a value in [1, 255], hence in
[0, 255]. -/
theorem C8_synthesizePulse (freq baud : ℕ)
    (hf : freq = 1200 ∨ freq = 2400) (hb : baud = 1200 ∨ baud = 2400) :
    ((writePulse freq baud 43200).length : ℤ) =
      ⌊(43200 : ℝ) / (baud * ((freq : ℝ) / 1200))⌋ ∧
    (∀ n < pulseLen freq baud 43200,
      n * 360 / pulseLen freq baud 43200 < 360) ∧
    (∀ smp ∈ writePulse freq baud 43200, 1 ≤ smp ∧ smp ≤ 255) := by
  have hlen : (writePulse freq baud 43200).length = pulseLen freq baud 43200 := by
    rw [writePulse, List.length_map, List.length_range]
  refine ⟨?_, ?_, ?_⟩
  · rcases hf with hf | hf <;> rcases hb with hb | hb <;> subst hf <;> subst hb
    · rw [hlen, show pulseLen 1200 1200 43200 = 36 from by decide,
        show (43200 : ℝ) / ((1200 : ℕ) * (((1200 : ℕ) : ℝ) / 1200)) =
          ((36 : ℤ) : ℝ) from by push_cast; norm_num,
        Int.floor_intCast]
      norm_num
    · rw [hlen, show pulseLen 1200 2400 43200 = 18 from by decide,
        show (43200 : ℝ) / ((2400 : ℕ) * (((1200 : ℕ) : ℝ) / 1200)) =
          ((18 : ℤ) : ℝ) from by push_cast; norm_num,
        Int.floor_intCast]
      norm_num
    · rw [hlen, show pulseLen 2400 1200 43200 = 18 from by decide,
        show (43200 : ℝ) / ((1200 : ℕ) * (((2400 : ℕ) : ℝ) / 1200)) =
          ((18 : ℤ) : ℝ) from by push_cast; norm_num,
        Int.floor_intCast]
      norm_num
    · rw [hlen, show pulseLen 2400 2400 43200 = 9 from by decide,
        show (43200 : ℝ) / ((2400 : ℕ) * (((2400 : ℕ) : ℝ) / 1200)) =
          ((9 : ℤ) : ℝ) from by push_cast; norm_num,
        Int.floor_intCast]
      norm_num
  · intro n hn
    apply pulse_index_lt _ _ _ hn
    rcases hf with hf | hf <;> rcases hb with hb | hb <;> subst hf <;>
      subst hb <;> decide
  · intro smp hsmp
    rw [writePulse, List.mem_map] at hsmp
    obtain ⟨n, _, rfl⟩ := hsmp
    exact sine_table_bounds _

theorem C8_witness :
    ((1200 : ℕ) = 1200 ∨ (1200 : ℕ) = 2400) ∧
    ((2400 : ℕ) = 1200 ∨ (2400 : ℕ) = 2400) ∧
    ((writePulse 1200 2400 43200).length : ℤ) =
      ⌊(43200 : ℝ) / ((2400 : ℕ) * (((1200 : ℕ) : ℝ) / 1200))⌋ :=
  ⟨Or.inl rfl, Or.inr rfl,
    (C8_synthesizePulse 1200 2400 (Or.inl rfl) (Or.inr rfl)).1⟩

/-! ### Byte framing and the inverse FSK rule -/

lemma dataBits_eq_range (n : ℕ) : ∀ b : ℕ,
    dataBits b n = (List.range n).flatMap
      (fun i => if b / 2 ^ i % 2 = 1 then [SHORT_PULSE, SHORT_PULSE]
        else [LONG_PULSE]) := by
  induction n with
  | zero => intro b; rfl
  | succ n ih =>
    intro b
    rw [dataBits, List.range_succ_eq_map, List.flatMap_cons, List.flatMap_map]
    have h0 : b / 2 ^ 0 % 2 = b % 2 := by
      rw [pow_zero, Nat.div_one]
    have hstep : ∀ i : ℕ, b / 2 ^ (i + 1) = (b / 2) / 2 ^ i := by
      intro i
      rw [Nat.div_div_eq_div_mul]
      congr 1
      rw [pow_succ, Nat.mul_comm 2 (2 ^ i)]
    congr 1
    · rw [h0]
    · rw [ih (b / 2)]
      apply List.flatMap_congr
      intro i _
      simp only [Function.comp_apply, Nat.succ_eq_add_one, hstep i]

lemma two_pow_mod_succ (b n : ℕ) :
    b % 2 ^ (n + 1) = 2 * (b / 2 % 2 ^ n) + b % 2 := by
  have hpos : 0 < 2 ^ n := Nat.pos_pow_of_pos n (by norm_num)
  have hq := Nat.div_add_mod b 2
  have h1 : (2 * (b / 2)) % (2 * 2 ^ n) = 2 * (b / 2 % 2 ^ n) :=
    Nat.mul_mod_mul_left 2 (b / 2) (2 ^ n)
  have hlt : 2 * (b / 2 % 2 ^ n) + b % 2 < 2 * 2 ^ n := by
    have ha := Nat.mod_lt (b / 2) hpos
    have hc := Nat.mod_lt b (show 0 < 2 by norm_num)
    omega
  calc b % 2 ^ (n + 1)
      = (2 * (b / 2) + b % 2) % (2 * 2 ^ n) := by
        rw [pow_succ, Nat.mul_comm (2 ^ n) 2, hq]
    _ = ((2 * (b / 2)) % (2 * 2 ^ n) + (b % 2) % (2 * 2 ^ n)) % (2 * 2 ^ n) := by
        rw [Nat.add_mod]
    _ = (2 * (b / 2 % 2 ^ n) + b % 2) % (2 * 2 ^ n) := by
        rw [h1, Nat.mod_eq_of_lt (by omega : b % 2 < 2 * 2 ^ n)]
    _ = 2 * (b / 2 % 2 ^ n) + b % 2 := Nat.mod_eq_of_lt hlt

lemma decodeBits_succ_long (n : ℕ) (rest : List ℕ) :
    decodeBits (n + 1) (LONG_PULSE :: rest) =
      (decodeBits n rest).map (fun p => (2 * p.1, p.2)) := by
  simp [decodeBits, LONG_PULSE, SHORT_PULSE]

lemma decodeBits_succ_short (n : ℕ) (rest : List ℕ) :
    decodeBits (n + 1) (SHORT_PULSE :: SHORT_PULSE :: rest) =
      (decodeBits n rest).map (fun p => (2 * p.1 + 1, p.2)) := by
  simp [decodeBits, LONG_PULSE, SHORT_PULSE]

lemma decodeBits_dataBits (n : ℕ) : ∀ (b : ℕ) (tail : List ℕ),
    decodeBits n (dataBits b n ++ tail) = some (b % 2 ^ n, tail) := by
  induction n with
  | zero =>
    intro b tail
    simp [decodeBits, dataBits, Nat.mod_one]
  | succ n ih =>
    intro b tail
    rw [dataBits]
    by_cases hb : b % 2 = 1
    · rw [if_pos hb]
      show decodeBits (n + 1)
        (SHORT_PULSE :: SHORT_PULSE :: (dataBits (b / 2) n ++ tail)) = _
      rw [decodeBits_succ_short, ih (b / 2) tail, Option.map_some']
      rw [two_pow_mod_succ b n, hb]
    · have hb0 : b % 2 = 0 := by omega
      rw [if_neg hb]
      show decodeBits (n + 1)
        (LONG_PULSE :: (dataBits (b / 2) n ++ tail)) = _
      rw [decodeBits_succ_long, ih (b / 2) tail, Option.map_some']
      rw [two_pow_mod_succ b n, hb0]
      simp

lemma decodeByte_writeByte (b : ℕ) (hb : b < 256) :
    decodeByte (writeByte b) = some (b, []) := by
  rw [writeByte]
  have hrep : List.replicate 4 SHORT_PULSE =
      [SHORT_PULSE, SHORT_PULSE, SHORT_PULSE, SHORT_PULSE] := rfl
  rw [hrep, decodeByte, if_pos rfl, decodeBits_dataBits 8 b _]
  show (if SHORT_PULSE = SHORT_PULSE ∧ SHORT_PULSE = SHORT_PULSE ∧
      SHORT_PULSE = SHORT_PULSE ∧ SHORT_PULSE = SHORT_PULSE
      then some (b % 2 ^ 8, ([] : List ℕ)) else none) = some (b, [])
  rw [if_pos ⟨rfl, rfl, rfl, rfl⟩,
    Nat.mod_eq_of_lt (show b < 2 ^ 8 by omega)]

/-- C7: writeByte emits one LONG_PULSE start bit, then for each of the 8
data bits of b least significant first two SHORT_PULSE tones for a 1 bit
and one LONG_PULSE tone for a 0 bit, then four SHORT_PULSE tones as the
two stop bits; decoding the emitted tones by the inverse FSK rule recovers
exactly b. -/
theorem C7_emitByte_roundtrip (b : ℕ) (hb : b < 256) :
    writeByte b =
      LONG_PULSE ::
        ((List.range 8).flatMap
          (fun i => if b / 2 ^ i % 2 = 1 then [SHORT_PULSE, SHORT_PULSE]
            else [LONG_PULSE]) ++
         [SHORT_PULSE, SHORT_PULSE, SHORT_PULSE, SHORT_PULSE]) ∧
    decodeByte (writeByte b) = some (b, []) := by
  constructor
  · rw [writeByte, dataBits_eq_range 8 b]
    rfl
  · exact decodeByte_writeByte b hb

theorem C7_witness :
    (165 : ℕ) < 256 ∧ decodeByte (writeByte 165) = some (165, []) :=
  ⟨by decide, (C7_emitByte_roundtrip 165 (by decide)).2⟩

/-! ### Sample counting lemmas -/

lemma totalPcm_append (baud : ℕ) (a b : List Evt) :
    totalPcm baud (a ++ b) = totalPcm baud a + totalPcm baud b := by
  simp [totalPcm]

lemma totalPcm_writeSilence (baud n : ℕ) :
    totalPcm baud (writeSilence n) = n := by
  simp [totalPcm, writeSilence, pcmLen]

lemma totalPcm_writeSync (baud u b2 : ℕ) :
    totalPcm baud (writeSync u b2) =
      (u * b2 / 1200) * pulseLen SHORT_PULSE baud OUTPUT_FREQUENCY := by
  simp [totalPcm, writeSync, List.map_replicate, List.sum_replicate,
    smul_eq_mul, pcmLen]

lemma totalPcm_dataEvts (baud : ℕ) (bytes : List ℕ) :
    totalPcm baud (dataEvts bytes) = (bytes.map (byteSamples baud)).sum := by
  induction bytes with
  | nil => rfl
  | cons b bs ih =>
    have hsplit : dataEvts (b :: bs) =
        (writeByte b).map Evt.tone ++ dataEvts bs := by
      simp [dataEvts]
    rw [hsplit, totalPcm_append, ih, List.map_cons, List.sum_cons]
    congr 1
    rw [totalPcm, List.map_map, byteSamples]
    rfl

lemma countSilence_append (a b : List Evt) :
    countSilence (a ++ b) = countSilence a + countSilence b := by
  simp [countSilence, List.countP_append]

lemma countSilence_writeSilence (n : ℕ) :
    countSilence (writeSilence n) = 1 := rfl

lemma countSilence_writeSync (u b2 : ℕ) :
    countSilence (writeSync u b2) = 0 := by
  rw [countSilence, List.countP_eq_zero]
  intro e he
  rw [writeSync] at he
  rw [List.eq_of_mem_replicate he]
  simp

lemma countSilence_dataEvts (bytes : List ℕ) :
    countSilence (dataEvts bytes) = 0 := by
  rw [countSilence, List.countP_eq_zero]
  intro e he
  rw [dataEvts, List.mem_flatMap] at he
  obtain ⟨b, _, hm⟩ := he
  rw [List.mem_map] at hm
  obtain ⟨f, _, rfl⟩ := hm
  simp

/-! ### C1: the single ASCII block claim -/

/-- C1 (amended): on an image of exactly one marker, the ASCII identifier
and a payload ending in the EOF sentinel with no further marker, the
scanner emits the configured silence, the initial sync, then the data
segment consisting of the 10 identifier bytes followed by the payload up to
and including the sentinel; the do-while block loop then unconditionally
emits one further short silence and block sync (with no further data), and
the scan cursor ends at the image length plus 8, not at the image length. -/
theorem C1_ascii_single (payload : List ℕ) (s baud : ℕ)
    (hnm : (splitAtMarker (ASCII ++ payload)).2 = none)
    (hlast : payload.getLast? = some EOF_MARKER) :
    scanLoop (HEADER ++ ASCII ++ payload) s baud 0 =
      (writeSilence s ++ writeSync SYNC_INITIAL baud ++
         dataEvts (ASCII ++ payload) ++
         (writeSilence SHORT_SILENCE ++ writeSync SYNC_BLOCK baud),
       (HEADER ++ ASCII ++ payload).length + 8) :=
  scan_ascii_single payload s baud hnm hlast

/-- C1 (counterexample): on the concrete image marker + ASCII identifier +
single byte 1A, the emitted events contain two silence segments (the
configured one and the extra short silence of the unconditional do-while
iteration), not one, and the final cursor is the image length plus 8
rather than the image length. -/
theorem C1_counterexample :
    countSilence
      (scanLoop (HEADER ++ ASCII ++ [EOF_MARKER]) 86400 1200 0).1 = 2 ∧
    (scanLoop (HEADER ++ ASCII ++ [EOF_MARKER]) 86400 1200 0).2 ≠
      (HEADER ++ ASCII ++ [EOF_MARKER]).length := by
  have h := scan_ascii_single [EOF_MARKER] 86400 1200 (by decide) (by decide)
  rw [h]
  constructor
  · simp only [countSilence_append, countSilence_writeSilence,
      countSilence_writeSync, countSilence_dataEvts]
  · simp only
    decide

theorem C1_witness :
    ((splitAtMarker (ASCII ++ [EOF_MARKER])).2 = none ∧
      ([EOF_MARKER] : List ℕ).getLast? = some EOF_MARKER) ∧
    scanLoop (HEADER ++ ASCII ++ [EOF_MARKER]) 86400 2400 0 =
      (writeSilence 86400 ++ writeSync SYNC_INITIAL 2400 ++
         dataEvts (ASCII ++ [EOF_MARKER]) ++
         (writeSilence SHORT_SILENCE ++ writeSync SYNC_BLOCK 2400),
       (HEADER ++ ASCII ++ [EOF_MARKER]).length + 8) :=
  ⟨⟨by decide, by decide⟩,
    C1_ascii_single [EOF_MARKER] 86400 2400 (by decide) (by decide)⟩

/-! ### C2: what doubling the baud rate actually halves -/

lemma dataBits_tones (n : ℕ) : ∀ b t, t ∈ dataBits b n →
    t = LONG_PULSE ∨ t = SHORT_PULSE := by
  induction n with
  | zero => intro b t ht; simp [dataBits] at ht
  | succ n ih =>
    intro b t ht
    rw [dataBits, List.mem_append] at ht
    rcases ht with ht | ht
    · by_cases hb : b % 2 = 1
      · rw [if_pos hb] at ht
        right
        rcases List.mem_cons.mp ht with h | h
        · exact h
        · simpa using h
      · rw [if_neg hb] at ht
        left
        simpa using ht
    · exact ih (b / 2) t ht

lemma writeByte_tones (b t : ℕ) (ht : t ∈ writeByte b) :
    t = LONG_PULSE ∨ t = SHORT_PULSE := by
  rw [writeByte, List.mem_cons] at ht
  rcases ht with h | h
  · exact Or.inl h
  · rw [List.mem_append] at h
    rcases h with h | h
    · exact dataBits_tones 8 b t h
    · exact Or.inr (List.eq_of_mem_replicate h)

lemma sum_map_double (l : List ℕ) (f g : ℕ → ℕ)
    (h : ∀ x ∈ l, f x = 2 * g x) :
    (l.map f).sum = 2 * (l.map g).sum := by
  induction l with
  | nil => simp
  | cons x xs ih =>
    rw [List.map_cons, List.map_cons, List.sum_cons, List.sum_cons,
      h x (List.mem_cons_self x xs), ih (fun y hy => h y (List.mem_cons_of_mem x hy)),
      Nat.mul_add]

/-- C2 (amended): doubling the baud rate from 1200 to 2400 halves the
sample count of each tone pulse and of each framed data byte, but leaves
the silence sample counts and the sync segment sample counts unchanged
(writeSync doubles its pulse count to preserve wall-clock duration), so
the total PCM byte count is not halved in general; the tone sequence per
data byte is independent of the baud rate and round-trip decoding recovers
each byte at either rate. -/
theorem C2_baud_halving (f b u n : ℕ) (hf : f = 1200 ∨ f = 2400)
    (hbyte : b < 256) :
    pulseLen f 1200 OUTPUT_FREQUENCY = 2 * pulseLen f 2400 OUTPUT_FREQUENCY ∧
    byteSamples 1200 b = 2 * byteSamples 2400 b ∧
    totalPcm 1200 (writeSync u 1200) = totalPcm 2400 (writeSync u 2400) ∧
    totalPcm 1200 (writeSilence n) = totalPcm 2400 (writeSilence n) ∧
    decodeByte (writeByte b) = some (b, []) := by
  refine ⟨?_, ?_, ?_, ?_, decodeByte_writeByte b hbyte⟩
  · rcases hf with hf | hf <;> subst hf <;> decide
  · rw [byteSamples, byteSamples]
    apply sum_map_double
    intro t ht
    rcases writeByte_tones b t ht with h | h <;> subst h <;> decide
  · rw [totalPcm_writeSync, totalPcm_writeSync]
    have h1 : u * 1200 / 1200 = u := Nat.mul_div_cancel u (by norm_num)
    have h2 : u * 2400 / 1200 = 2 * u := by
      have : u * 2400 = 2 * u * 1200 := by ring
      rw [this, Nat.mul_div_cancel _ (by norm_num : (0:ℕ) < 1200)]
    rw [h1, h2,
      show pulseLen SHORT_PULSE 1200 OUTPUT_FREQUENCY = 18 from by decide,
      show pulseLen SHORT_PULSE 2400 OUTPUT_FREQUENCY = 9 from by decide]
    ring
  · rw [totalPcm_writeSilence, totalPcm_writeSilence]

/-- C2 (counterexample): on the concrete single-block ASCII image with a
zero configured silence, the total PCM byte count at 2400 baud is not half
of the total at 1200 baud, because the sync segments keep the same sample
count at both rates. -/
theorem C2_counterexample :
    2 * totalPcm 2400 (scanLoop (HEADER ++ ASCII ++ [EOF_MARKER]) 0 2400 0).1 ≠
      totalPcm 1200 (scanLoop (HEADER ++ ASCII ++ [EOF_MARKER]) 0 1200 0).1 := by
  have h12 := scan_ascii_single [EOF_MARKER] 0 1200 (by decide) (by decide)
  have h24 := scan_ascii_single [EOF_MARKER] 0 2400 (by decide) (by decide)
  rw [h12, h24]
  simp only
  have hd : ∀ baud : ℕ,
      totalPcm baud (dataEvts (ASCII ++ [EOF_MARKER])) =
        10 * byteSamples baud 0xEA + byteSamples baud EOF_MARKER := by
    intro baud
    rw [totalPcm_dataEvts,
      show ASCII ++ [EOF_MARKER] = List.replicate 10 0xEA ++ [EOF_MARKER] from rfl,
      List.map_append, List.map_replicate, List.sum_append,
      List.sum_replicate, smul_eq_mul]
    simp
  simp only [totalPcm_append, totalPcm_writeSilence, totalPcm_writeSync, hd,
    show byteSamples 1200 0xEA = 396 from by decide,
    show byteSamples 2400 0xEA = 198 from by decide,
    show byteSamples 1200 EOF_MARKER = 396 from by decide,
    show byteSamples 2400 EOF_MARKER = 198 from by decide,
    show pulseLen SHORT_PULSE 1200 OUTPUT_FREQUENCY = 18 from by decide,
    show pulseLen SHORT_PULSE 2400 OUTPUT_FREQUENCY = 9 from by decide]
  norm_num [SYNC_INITIAL, SYNC_BLOCK, SHORT_SILENCE, OUTPUT_FREQUENCY]

theorem C2_witness :
    ((1200 : ℕ) = 1200 ∨ (1200 : ℕ) = 2400) ∧ (234 : ℕ) < 256 ∧
    (pulseLen 1200 1200 OUTPUT_FREQUENCY =
      2 * pulseLen 1200 2400 OUTPUT_FREQUENCY) ∧
    byteSamples 1200 234 = 2 * byteSamples 2400 234 ∧
    decodeByte (writeByte 234) = some (234, []) :=
  ⟨Or.inl rfl, by decide,
    (C2_baud_halving 1200 234 1 1 (Or.inl rfl) (by decide)).1,
    (C2_baud_halving 1200 234 1 1 (Or.inl rfl) (by decide)).2.1,
    (C2_baud_halving 1200 234 1 1 (Or.inl rfl) (by decide)).2.2.2.2⟩

/-! ### C9: unknown and truncated type identifiers -/

/-- C9: on a marker whose 10-byte identifier matches none of the known
patterns the scanner prints a diagnostic and emits the fixed long silence
(2 times the output sample rate, not the configured value), the initial
sync and exactly one payload segment, then resumes scanning; on a marker
followed by fewer than 10 remaining bytes it prints a diagnostic and emits
the configured silence, the initial sync and exactly one payload segment,
then resumes scanning.  Neither case aborts the run. -/
theorem C9_unknown_and_truncated (cas : List ℕ) (s baud pos : ℕ) :
    (pos + 8 ≤ cas.length → (cas.drop pos).take 8 = HEADER →
      pos + 8 + 10 ≤ cas.length →
      (cas.drop (pos + 8)).take 10 ≠ ASCII →
      (cas.drop (pos + 8)).take 10 ≠ BIN →
      (cas.drop (pos + 8)).take 10 ≠ BASIC →
      scanLoop cas s baud pos =
        (Evt.unknownDiag ::
           (writeSilence (OUTPUT_FREQUENCY * 2) ++
             writeSync SYNC_INITIAL baud ++
             dataEvts (writeData cas (pos + 8)).1 ++
             (scanLoop cas s baud (writeData cas (pos + 8)).2.1).1),
         (scanLoop cas s baud (writeData cas (pos + 8)).2.1).2)) ∧
    (pos + 8 ≤ cas.length → (cas.drop pos).take 8 = HEADER →
      ¬(pos + 8 + 10 ≤ cas.length) →
      scanLoop cas s baud pos =
        (Evt.unknownDiag ::
           (writeSilence s ++ writeSync SYNC_INITIAL baud ++
             dataEvts (writeData cas (pos + 8)).1 ++
             (scanLoop cas s baud (writeData cas (pos + 8)).2.1).1),
         (scanLoop cas s baud (writeData cas (pos + 8)).2.1).2)) := by
  constructor
  · intro h8 hH h10 hA hBIN hBAS
    exact scanLoop_unknown cas s baud pos h8 hH h10 hA
      (fun hor => Or.elim hor hBIN hBAS)
  · intro h8 hH h10
    exact scanLoop_trunc cas s baud pos h8 hH h10

theorem C9_witness :
    ((0 : ℕ) + 8 ≤ (HEADER ++ [1, 2, 3] : List ℕ).length ∧
      ((HEADER ++ [1, 2, 3] : List ℕ).drop 0).take 8 = HEADER ∧
      ¬((0 : ℕ) + 8 + 10 ≤ (HEADER ++ [1, 2, 3] : List ℕ).length)) ∧
    scanLoop (HEADER ++ [1, 2, 3]) 86400 1200 0 =
      (Evt.unknownDiag ::
         (writeSilence 86400 ++ writeSync SYNC_INITIAL 1200 ++
           dataEvts (writeData (HEADER ++ [1, 2, 3]) (0 + 8)).1 ++
           (scanLoop (HEADER ++ [1, 2, 3]) 86400 1200
             (writeData (HEADER ++ [1, 2, 3]) (0 + 8)).2.1).1),
       (scanLoop (HEADER ++ [1, 2, 3]) 86400 1200
         (writeData (HEADER ++ [1, 2, 3]) (0 + 8)).2.1).2) :=
  ⟨⟨by decide, by decide, by decide⟩,
    (C9_unknown_and_truncated (HEADER ++ [1, 2, 3]) 86400 1200 0).2
      (by decide) (by decide) (by decide)⟩

end CasTools
